import Mathlib

/-
  Shallow embedding of src/src/parser.c (augeas grammar-driven text matcher).

  Modelling conventions:
  * The input text is a `List Char`; the C cursor field `pos` is modelled as a
    byte offset `offset` into that list (`pos - text` in the C code).
  * The `struct state` fields `filename`, `flags` and `log` only feed the
    diagnostic trace output (fprintf), which the spec declares to have no
    correctness contract; they are dropped.  The non-fatal error-reporting
    path `grammar_error` / `parse_error` (which prints a diagnostic and
    continues) is made observable as a list `errors` accumulated in the state.
  * The regex engine is out of scope per the spec: a `Literal` is the
    capability "attempt an anchored match of the pattern at offset O in text T,
    returning matched length or no-match", i.e. a function
    `List Char → Nat → Option Nat`.  Because the match is anchored
    (PCRE_ANCHORED), a successful match always starts exactly at the offset,
    so the "Skipped N characters" branch of `lex` (parser.c:83-85) is
    structurally unreachable and has no counterpart here.
  * Recursive rule references and the quantifier loops can diverge in the C
    code, so the recursive interpreter takes a fuel parameter and returns
    `Option State`; `none` means the fuel budget was exhausted, never a parse
    outcome.
-/

namespace AugeasParser

/-- Quantifier tags, from enum quant (Q_ONCE, Q_MAYBE, Q_STAR, Q_PLUS). -/
inductive Quant where
  | once
  | maybe
  | star
  | plus
deriving DecidableEq

/-- A compiled pattern: the anchored-match capability of the external regex
engine (pcre_exec with PCRE_ANCHORED in parser.c:74-75).  `matchAt text off`
returns the matched length, or `none` for no match. -/
structure Literal where
  matchAt : List Char → Nat → Option Nat

instance : Inhabited Literal := ⟨⟨fun _ _ => none⟩⟩

/-- An abbreviation: a name bound to a literal (struct abbrev). -/
structure Abbrev where
  name : String
  literal : Literal

/-- struct match: a tagged grammar node.  Every C match node carries a
quantifier field and a precomputed first-set, so every constructor does too.
Differences from the C representation: the FIELD node carries the sibling node
already resolved (find_field failure is a fatal grammar-construction defect
per the spec, not a parse outcome), and RULE_REF holds an index into the
grammar's rule arena instead of a pointer. -/
inductive Match where
  | literal (quant : Quant) (first : List Literal) (lit : Literal)
  | any (quant : Quant) (first : List Literal) (lit : Literal)
  | field (quant : Quant) (first : List Literal) (resolved : Match)
  | alternative (quant : Quant) (first : List Literal) (ms : List Match)
  | sequence (quant : Quant) (first : List Literal) (ms : List Match)
  | ruleRef (quant : Quant) (first : List Literal) (rule : Nat)
  | abbrevRef (quant : Quant) (first : List Literal) (ab : Abbrev)

instance : Inhabited Match := ⟨.literal .once [] default⟩

/-- Accessor for the C field match->quant. -/
def Match.quant : Match → Quant
  | .literal q _ _ => q
  | .any q _ _ => q
  | .field q _ _ => q
  | .alternative q _ _ => q
  | .sequence q _ _ => q
  | .ruleRef q _ _ => q
  | .abbrevRef q _ _ => q

/-- Accessor for the C field match->first (precomputed first-set). -/
def Match.first : Match → List Literal
  | .literal _ f _ => f
  | .any _ f _ => f
  | .field _ f _ => f
  | .alternative _ f _ => f
  | .sequence _ f _ => f
  | .ruleRef _ f _ => f
  | .abbrevRef _ f _ => f

/-- Accessor for the C field match->matches, the children of compound nodes
(`matches` is a reserved word in Lean, hence the name). -/
def Match.submatches : Match → List Match
  | .alternative _ _ ms => ms
  | .sequence _ _ ms => ms
  | _ => []

/-- Accessor for the C field match->rule (only meaningful on ruleRef nodes). -/
def Match.ruleIdx : Match → Nat
  | .ruleRef _ _ i => i
  | _ => 0

/-- struct rule: a name plus one match-node body.  The C field is
rule->matches; `matches` is a reserved word in Lean, hence `body`. -/
structure Rule where
  name : String
  body : Match

instance : Inhabited Rule := ⟨⟨"", default⟩⟩

/-- struct grammar: the rule arena; the root rule is the head of the list
(parse invokes grammar->rules, parser.c:248). -/
structure Grammar where
  rules : List Rule

/-- struct state (parser.c:32-40), minus the diagnostics-only fields
filename/flags/log; `errors` records the non-fatal grammar_error reports. -/
structure State where
  text : List Char
  offset : Nat
  lineno : Nat
  applied : Bool
  errors : List String
deriving DecidableEq

/-- The message reported by parse_quant_match when a Plus quantifier's first
repetition does not apply (parser.c:181-182). -/
def errMismatch : String := "match did not apply"

/-- The non-fatal error-reporting path (grammar_error): record the diagnostic
and continue.  In C this prints to the error stream; the report itself is the
observable fact we keep. -/
def grammar_error (st : State) (msg : String) : State :=
  { st with errors := st.errors ++ [msg] }

/-- The NUL terminator of a C string. -/
def nulChar : Char := Char.ofNat 0

/-- Reading character i of a NUL-terminated C string: positions at or past the
end read the terminator (used by parse's `*state.pos != '\0'` test,
parser.c:249). -/
def cstrAt : List Char → Nat → Char
  | [], _ => nulChar
  | c :: _, 0 => c
  | _ :: cs, n + 1 => cstrAt cs n

/-- The newline count computed by the loop in advance (parser.c:46-51):
`for i in [0, cnt)`, count positions with text[i] = newline.  Reading past the
end of the list contributes nothing (in C this is reading past the NUL, which
the engine never does on well-formed calls). -/
def newlines : List Char → Nat → Nat
  | _, 0 => 0
  | [], _ + 1 => 0
  | c :: cs, n + 1 => (if c = '\n' then 1 else 0) + newlines cs n

/-- advance (parser.c:42-68): consume cnt characters, bumping the line counter
once per newline among them.  The PF_ADVANCE trace output is dropped; the
null-pos internal_error cannot arise in the offset model. -/
def advance (st : State) (cnt : Nat) : State :=
  if cnt = 0 then st
  else { st with
          lineno := st.lineno + newlines (st.text.drop st.offset) cnt,
          offset := st.offset + cnt }

/-- lex (parser.c:70-89) with the state threaded explicitly, as the C function
receives `struct state *`: anchored match at the current offset; returns the
matched length, or -1 for no match, plus the state as left by the call.
Because the match is anchored, the "Skipped N characters" parse_error branch
(parser.c:83-85) is unreachable and does not appear. -/
def lexS (lit : Literal) (st : State) : Int × State :=
  match lit.matchAt st.text st.offset with
  | some n => ((n : Int), st)
  | none => (-1, st)

/-- The value computed by lex; `lexS` additionally shows that the call leaves
the state untouched (theorem applies_leaves_cursor below). -/
def lex (lit : Literal) (st : State) : Int :=
  (lexS lit st).1

/-- The loop of applies (parser.c:121-124) with the state threaded explicitly:
for each first-set literal, lex it; return true on the first one with a
positive matched length. -/
def appliesFirstS : List Literal → State → Bool × State
  | [], st => (false, st)
  | f :: fs, st =>
      let p := lexS f st
      if p.1 > 0 then (true, p.2) else appliesFirstS fs p.2

/-- applies (parser.c:120-127) with the state threaded explicitly. -/
def appliesS (m : Match) (st : State) : Bool × State :=
  appliesFirstS m.first st

/-- The loop of applies, value part. -/
def appliesFirst : List Literal → State → Bool
  | [], _ => false
  | f :: fs, st => if lex f st > 0 then true else appliesFirst fs st

/-- applies (parser.c:120-127), value part; the engine below uses this form,
justified by theorem applies_leaves_cursor (lookahead never moves the
cursor). -/
def applies (m : Match) (st : State) : Bool :=
  appliesFirst m.first st

/-- parse_literal (parser.c:105-114): lex the literal; on failure clear the
applied flag and consume nothing; on success advance by the matched length and
set the applied flag.  emit_token only logs (PF_TOKEN) and is dropped. -/
def parse_literal (lit : Literal) (st0 : State) : State :=
  let p := lexS lit st0
  if p.1 < 0 then { p.2 with applied := false }
  else { advance p.2 p.1.toNat with applied := true }

/-- parse_any (parser.c:116-118): identical to literal, on the node's own
literal. -/
def parse_any (m : Match) (st : State) : State :=
  match m with
  | .literal _ _ lit => parse_literal lit st
  | .any _ _ lit => parse_literal lit st
  | _ => parse_literal default st

/-- The branch loop of parse_alternative (parser.c:131-138), parameterized by
the dispatch function pm (the C call parse_match(p, state)): take the first
branch whose lookahead predicate holds, dispatch into it, and set applied
unconditionally afterwards; fall through to the state (applied already
cleared) when no branch's predicate holds. -/
def alt_loop (pm : Match → State → Option State) : List Match → State → Option State
  | [], st => some st
  | p :: ps, st =>
      if applies p st then (pm p st).map (fun s => { s with applied := true })
      else alt_loop pm ps st

/-- parse_alternative (parser.c:129-139): clear the applied flag, then scan the
branches in declaration order. -/
def parse_alternative (pm : Match → State → Option State) (m : Match) (st : State) :
    Option State :=
  alt_loop pm m.submatches { st with applied := false }

/-- The element loop of parse_sequence (parser.c:143-147): dispatch each
sub-match in order, stopping at the first one that clears the applied flag. -/
def seq_loop (pm : Match → State → Option State) : List Match → State → Option State
  | [], st => some st
  | p :: ps, st =>
      (pm p st).bind fun s => if s.applied then seq_loop pm ps s else some s

/-- parse_sequence (parser.c:141-148): set the applied flag, then run the
element loop. -/
def parse_sequence (pm : Match → State → Option State) (m : Match) (st : State) :
    Option State :=
  seq_loop pm m.submatches { st with applied := true }

/-- parse_rule (parser.c:155-160): dispatch into the rule's body (the PF_RULE
trace line is dropped). -/
def parse_rule (pm : Match → State → Option State) (r : Rule) (st : State) :
    Option State :=
  pm r.body st

/-- parse_rule_ref (parser.c:162-164): invoke the referenced rule.  In C the
node holds a pointer into the grammar; here an index into the rule arena.  An
out-of-range index cannot arise from a C grammar (pointers always refer to a
real rule); it yields `none`. -/
def parse_rule_ref (g : Grammar) (pm : Match → State → Option State) (m : Match)
    (st : State) : Option State :=
  match g.rules.get? m.ruleIdx with
  | some r => parse_rule pm r st
  | none => none

/-- The `while (state->applied) func(match, state)` loop of the Plus case
(parser.c:184-185), with a fuel bound; `none` means fuel ran out mid-loop. -/
def while_applied (cf : State → Option State) : Nat → State → Option State
  | 0, st => if st.applied then none else some st
  | n + 1, st => if st.applied then (cf st).bind (while_applied cf n) else some st

/-- The `while (applies(match, state)) func(match, state)` loop of the Star
case (parser.c:189-191), with a fuel bound. -/
def star_loop (m : Match) (cf : State → Option State) : Nat → State → Option State
  | 0, st => if applies m st then none else some st
  | n + 1, st =>
      if applies m st then (cf st).bind (star_loop m cf n) else some st

/-- parse_quant_match (parser.c:166-199): drive one repetition function func
with the node's quantifier semantics.  The default (illegal quant) branch is
unrepresentable in the closed Quant type.  `fuel` bounds only the Plus/Star
loops. -/
def parse_quant_match (func : Match → State → Option State) (fuel : Nat)
    (m : Match) (st : State) : Option State :=
  match m.quant with
  | .once => func m st
  | .maybe =>
      (if applies m st then func m st else some st).map
        (fun s => { s with applied := true })
  | .plus =>
      (func m st).bind fun st1 =>
        let st2 := if st1.applied then st1 else grammar_error st1 errMismatch
        (while_applied (func m) fuel st2).map (fun s => { s with applied := true })
  | .star =>
      (star_loop m (func m) fuel st).map (fun s => { s with applied := true })

/-- parse_match (parser.c:201-229): type-switch over the node kind.  LITERAL,
ANY and ABBREV_REF go straight to the literal matcher; FIELD recurses into the
resolved sibling; the quantified kinds go through the quantifier driver, whose
repetition function closes over parse_match at the remaining fuel.  The
default (illegal type) branch is unrepresentable in the closed Match type. -/
def parse_match (g : Grammar) : Nat → Match → State → Option State
  | 0, _, _ => none
  | fuel + 1, m, st =>
      match m with
      | .literal _ _ lit => some (parse_literal lit st)
      | .any _ _ _ => some (parse_any m st)
      | .field _ _ resolved => parse_match g fuel resolved st
      | .alternative _ _ _ =>
          parse_quant_match
            (parse_alternative (fun m2 s2 => parse_match g fuel m2 s2)) fuel m st
      | .sequence _ _ _ =>
          parse_quant_match
            (parse_sequence (fun m2 s2 => parse_match g fuel m2 s2)) fuel m st
      | .ruleRef _ _ _ =>
          parse_quant_match
            (parse_rule_ref g (fun m2 s2 => parse_match g fuel m2 s2)) fuel m st
      | .abbrevRef _ _ ab => some (parse_literal ab.literal st)

/-- The fresh cursor built by parse (parser.c:235-239): offset 0, line 1,
applied flag clear. -/
def parseInit (text : List Char) : State :=
  { text := text, offset := 0, lineno := 1, applied := false, errors := [] }

/-- parse (parser.c:231-251): build a fresh cursor, invoke the root rule
(grammar->rules, the head of the arena), and judge success as
`applied && *pos == NUL` (the C failure test is
`!state.applied || *state.pos != '\0'`).  Returns the outcome flag together
with the final cursor state; `none` only on fuel exhaustion. -/
def parse (g : Grammar) (fuel : Nat) (text : List Char) : Option (Bool × State) :=
  (parse_rule (fun m s => parse_match g fuel m s) g.rules.headI (parseInit text)).map
    fun st => (st.applied && (cstrAt st.text st.offset == nulChar), st)

/-
  Concrete instances used to exercise the embedding (witness material).
-/

/-- Boolean list-prefix test, used to build concrete anchored literals. -/
def isPfx : List Char → List Char → Bool
  | [], _ => true
  | _ :: _, [] => false
  | a :: as, b :: bs => a == b && isPfx as bs

/-- A concrete literal whose pattern matches the fixed string s: the anchored
match at offset `off` succeeds, with length s.length, exactly when s is a
prefix of the text from that offset.  Stands in for a pcre pattern with no
metacharacters. -/
def strLit (s : List Char) : Literal :=
  ⟨fun text off => if isPfx s (text.drop off) then some s.length else none⟩

/-- A bare literal node (Once quantifier, empty first-set) over strLit s. -/
def litM (s : List Char) : Match :=
  Match.literal Quant.once [] (strLit s)

/-- A one-rule grammar whose root rule body is the literal "ab". -/
def gRoot : Grammar :=
  ⟨[{ name := "", body := litM ['a', 'b'] }]⟩

/-- A one-rule grammar whose rule 0 body is the literal "a". -/
def gA : Grammar :=
  ⟨[{ name := "", body := litM ['a'] }]⟩

/-- A Star-quantified reference to rule 0 of gA, with first-set containing the
literal "a" (the precomputed first-set the grammar compiler would attach). -/
def starA : Match :=
  Match.ruleRef Quant.star [strLit ['a']] 0

/-- A one-rule grammar whose root body is a Once sequence of the two literals
"ab\n" and "cd". -/
def gSeq : Grammar :=
  ⟨[{ name := "", body := Match.sequence Quant.once []
        [litM ['a', 'b', '\n'], litM ['c', 'd']] }]⟩

/-- A literal whose pattern matches the empty string (e.g. the pcre pattern
x* at a position not starting with x): the anchored match always succeeds
with length 0. -/
def epsLit : Literal :=
  ⟨fun _ _ => some 0⟩

/-- A node whose precomputed first-set holds just the zero-length-matching
literal. -/
def epsNode : Match :=
  Match.literal Quant.once [epsLit] epsLit

/-- A literal node whose first-set contains its own pattern "a" (as the
grammar compiler computes for an alternative branch). -/
def aFirstNode : Match :=
  Match.literal Quant.once [strLit ['a']] (strLit ['a'])

/-- A dispatch stand-in that leaves the state unchanged. -/
def pmKeep : Match → State → Option State :=
  fun _ s => some s

/-- A repetition function whose attempt never applies. -/
def funcFail : Match → State → Option State :=
  fun _ s => some { s with applied := false }

/-- A Plus-quantified compound node with no children and an empty first-set. -/
def mPlus : Match :=
  Match.sequence Quant.plus [] []

/-- A Star-quantified compound node with an empty first-set, so its lookahead
predicate never holds. -/
def mStarEmpty : Match :=
  Match.sequence Quant.star [] []

/-- A dispatch stand-in returning a fixed applied state carrying one recorded
mismatch report. -/
def pmP : Match → State → Option State :=
  fun _ _ => some (State.mk ['z'] 0 1 true [errMismatch])

/-
  Helper lemmas (shared across the claim theorems).
-/

/-- lex leaves the state component of lexS untouched. -/
theorem lexS_eq (lit : Literal) (st : State) : lexS lit st = (lex lit st, st) := by
  unfold lex lexS
  cases lit.matchAt st.text st.offset <;> rfl

/-- The state-threading first-set loop never moves the state. -/
theorem appliesFirstS_eq (fs : List Literal) (st : State) :
    appliesFirstS fs st = (appliesFirst fs st, st) := by
  induction fs with
  | nil => rfl
  | cons f fs ih =>
      simp only [appliesFirstS, appliesFirst, lexS_eq]
      by_cases h : lex f st > 0 <;> simp [h, ih]

/-- lex reads only the text and offset of the state, not the applied flag. -/
theorem lex_set_applied (f : Literal) (st : State) (b : Bool) :
    lex f { st with applied := b } = lex f st := by
  unfold lex lexS
  dsimp only
  cases f.matchAt st.text st.offset <;> rfl

/-- The lookahead test ignores the applied flag (it reads only text and
offset). -/
theorem appliesFirst_set_applied (fs : List Literal) (st : State) (b : Bool) :
    appliesFirst fs { st with applied := b } = appliesFirst fs st := by
  induction fs with
  | nil => rfl
  | cons f fs ih =>
      simp only [appliesFirst, lex_set_applied, ih]

/-- applies ignores the applied flag. -/
theorem applies_set_applied (m : Match) (st : State) (b : Bool) :
    applies m { st with applied := b } = applies m st :=
  appliesFirst_set_applied m.first st b

/-- The Plus driver's trailing while-loop exits at once on a state whose
applied flag is clear. -/
theorem while_applied_of_not (cf : State → Option State) (n : Nat) (st : State)
    (h : st.applied = false) : while_applied cf n st = some st := by
  cases n <;> simp [while_applied, h]

/-- The Star loop performs zero repetitions when the lookahead predicate
fails. -/
theorem star_loop_of_not (m : Match) (cf : State → Option State) (n : Nat)
    (st : State) (h : applies m st = false) : star_loop m cf n st = some st := by
  cases n <;> simp [star_loop, h]

/-- Whenever the Star loop terminates normally, it is because the lookahead
predicate no longer holds at the final state. -/
theorem star_loop_stops (m : Match) (cf : State → Option State) :
    ∀ (n : Nat) (st st2 : State), star_loop m cf n st = some st2 →
      applies m st2 = false := by
  intro n
  induction n with
  | zero =>
      intro st st2 h
      by_cases ha : applies m st
      · simp [star_loop, ha] at h
      · simp [star_loop, ha] at h
        rw [← h]
        simpa using ha
  | succ n ih =>
      intro st st2 h
      by_cases ha : applies m st
      · simp [star_loop, ha, Option.bind_eq_some] at h
        obtain ⟨s, _, hs⟩ := h
        exact ih s st2 hs
      · simp [star_loop, ha] at h
        rw [← h]
        simpa using ha

/-- Whenever the Plus driver's while-loop terminates normally, the final state
has the applied flag clear (the loop stops at the first repetition that did
not apply). -/
theorem while_applied_stops (cf : State → Option State) :
    ∀ (n : Nat) (st st2 : State), while_applied cf n st = some st2 →
      st2.applied = false := by
  intro n
  induction n with
  | zero =>
      intro st st2 h
      by_cases ha : st.applied
      · simp [while_applied, ha] at h
      · simp [while_applied, ha] at h
        rw [← h]
        simpa using ha
  | succ n ih =>
      intro st st2 h
      by_cases ha : st.applied
      · simp [while_applied, ha, Option.bind_eq_some] at h
        obtain ⟨s, _, hs⟩ := h
        exact ih s st2 hs
      · simp [while_applied, ha] at h
        rw [← h]
        simpa using ha

/-- advance moves the offset forward by exactly the consumed count. -/
theorem advance_offset (st : State) (cnt : Nat) :
    (advance st cnt).offset = st.offset + cnt := by
  unfold advance
  by_cases h : cnt = 0 <;> simp [h]

/-- The newline scan of advance counts exactly the newline characters among
the first cnt characters. -/
theorem newlines_eq_count :
    ∀ (l : List Char) (n : Nat), newlines l n = (l.take n).count '\n'
  | _, 0 => by simp [newlines]
  | [], n + 1 => by simp [newlines]
  | c :: cs, n + 1 => by
      simp only [newlines, List.take_succ_cons, List.count_cons,
        newlines_eq_count cs n]
      by_cases h : c = '\n' <;> simp [h, Nat.add_comm]

/-- Reading a NUL-free C string at an offset within bounds yields the NUL
terminator exactly at the end of the string. -/
theorem cstrAt_nul_iff :
    ∀ (l : List Char) (i : Nat), nulChar ∉ l → i ≤ l.length →
      (cstrAt l i = nulChar ↔ i = l.length) := by
  intro l
  induction l with
  | nil =>
      intro i _ hle
      simp only [List.length_nil, Nat.le_zero] at hle
      subst hle
      simp [cstrAt]
  | cons c cs ih =>
      intro i hnul hle
      cases i with
      | zero =>
          simp only [cstrAt, List.length_cons]
          constructor
          · intro h
            exact absurd (h ▸ List.mem_cons_self c cs) hnul
          · intro h
            omega
      | succ n =>
          simp only [cstrAt, List.length_cons]
          have hnul2 : nulChar ∉ cs := fun hm => hnul (List.mem_cons_of_mem c hm)
          have hle2 : n ≤ cs.length := by
            simpa using hle
          rw [ih n hnul2 hle2]
          omega

/-
  Claim theorems.
-/

/-- Claim C6: for every node and every cursor state, evaluating the lookahead
predicate leaves the cursor entirely unchanged (same offset, same line
number): the state-threading translation appliesS of applies (parser.c:120-127)
returns exactly the incoming state, together with the value computed by the
pure form `applies` that the rest of the engine uses. -/
theorem applies_leaves_cursor (m : Match) (st : State) :
    appliesS m st = (applies m st, st) :=
  appliesFirstS_eq m.first st

/-- Claim C7: for every Literal node dispatched against the input, a
successful lex advances the cursor by exactly the matched length and sets
applied; a failed lex clears applied and leaves the cursor offset unchanged
(parser.c:105-114). -/
theorem literal_dispatch_advances (lit : Literal) (st : State) :
    (∀ n : Nat, lit.matchAt st.text st.offset = some n →
      parse_literal lit st = { advance st n with applied := true }
      ∧ (parse_literal lit st).offset = st.offset + n)
    ∧ (lit.matchAt st.text st.offset = none →
      parse_literal lit st = { st with applied := false }
      ∧ (parse_literal lit st).offset = st.offset) := by
  constructor
  · intro n hm
    have he : parse_literal lit st = { advance st n with applied := true } := by
      unfold parse_literal lexS
      rw [hm]
      simp
    refine ⟨he, ?_⟩
    rw [he]
    exact advance_offset st n
  · intro hm
    have he : parse_literal lit st = { st with applied := false } := by
      unfold parse_literal lexS
      rw [hm]
      simp
    exact ⟨he, by rw [he]⟩

/-- Claim C7 witness: the literal "a" matched against "a" at offset 0 advances
the cursor to offset 1 with applied set; against "x" it leaves offset 0 with
applied clear. -/
theorem literal_dispatch_advances_witness :
    (strLit ['a']).matchAt (parseInit ['a']).text (parseInit ['a']).offset = some 1
    ∧ parse_literal (strLit ['a']) (parseInit ['a']) = State.mk ['a'] 1 1 true []
    ∧ parse_literal (strLit ['a']) (parseInit ['x']) = State.mk ['x'] 0 1 false [] :=
  ⟨by decide,
   ((literal_dispatch_advances (strLit ['a']) (parseInit ['a'])).1 1 (by decide)).1,
   ((literal_dispatch_advances (strLit ['a']) (parseInit ['x'])).2 (by decide)).1⟩

/-- Claim C8: each advance(n) call raises the line counter by exactly the
number of newline characters among the n consumed characters (parser.c:46-51);
the counter starts at 1 on a fresh cursor (parser.c:236); concretely, fully
consuming "ab\ncd" through a sequence of the literals "ab\n" and "cd" raises
it from 1 to 2 exactly once. -/
theorem advance_counts_newlines (st : State) (cnt : Nat) (text : List Char) :
    (advance st cnt).lineno
      = st.lineno + ((st.text.drop st.offset).take cnt).count '\n'
    ∧ (parseInit text).lineno = 1
    ∧ parse gSeq 10 ['a', 'b', '\n', 'c', 'd']
        = some (true, State.mk ['a', 'b', '\n', 'c', 'd'] 5 2 true []) := by
  refine ⟨?_, rfl, by decide⟩
  unfold advance
  by_cases h : cnt = 0
  · simp [h]
  · simp [h, newlines_eq_count]

/-- Claim C9: the dispatcher parse_match (parser.c:201-229) sends Literal, Any
and AbbrevRef nodes straight to the literal matcher, never through the
quantifier driver; the result is the same for every value of the node's
quantifier field. -/
theorem dispatch_ignores_quantifier (g : Grammar) (fuel : Nat) (q : Quant)
    (fs : List Literal) (lit : Literal) (ab : Abbrev) (st : State) :
    parse_match g (fuel + 1) (Match.literal q fs lit) st
      = some (parse_literal lit st)
    ∧ parse_match g (fuel + 1) (Match.any q fs lit) st
      = some (parse_literal lit st)
    ∧ parse_match g (fuel + 1) (Match.abbrevRef q fs ab) st
      = some (parse_literal ab.literal st) :=
  ⟨rfl, rfl, rfl⟩

/-- Claim C1: parse (parser.c:231-251) reports success iff, after invoking the
root rule on a fresh cursor, the applied flag is set and the cursor's offset
sits exactly at the end of the text; any unconsumed suffix makes the call a
failure.  The C test reads `applied && *pos == NUL`; for a NUL-free input text
(every C string) with the final offset within bounds, that NUL test holds
exactly at the end of the text. -/
theorem parse_success_iff (g : Grammar) (fuel : Nat) (text : List Char)
    (ok : Bool) (st : State) (h : parse g fuel text = some (ok, st))
    (hnul : nulChar ∉ st.text) (hle : st.offset ≤ st.text.length) :
    ok = true ↔ (st.applied = true ∧ st.offset = st.text.length) := by
  unfold parse at h
  rw [Option.map_eq_some'] at h
  obtain ⟨st0, _, hfn⟩ := h
  have hst : st0 = st := congrArg Prod.snd hfn
  subst hst
  have hok : ok = (st0.applied && (cstrAt st0.text st0.offset == nulChar)) :=
    (congrArg Prod.fst hfn).symm
  subst hok
  simp only [Bool.and_eq_true, beq_iff_eq]
  rw [cstrAt_nul_iff st0.text st0.offset hnul hle]

/-- Claim C1 witness: the one-literal grammar gRoot fully consumes "ab", and
the success law holds at that concrete outcome. -/
theorem parse_success_iff_witness :
    parse gRoot 2 ['a', 'b'] = some (true, State.mk ['a', 'b'] 2 1 true [])
    ∧ ((true = true) ↔ ((State.mk ['a', 'b'] 2 1 true []).applied = true
        ∧ (State.mk ['a', 'b'] 2 1 true []).offset
            = (State.mk ['a', 'b'] 2 1 true []).text.length)) :=
  ⟨by decide,
   parse_success_iff gRoot 2 ['a', 'b'] true (State.mk ['a', 'b'] 2 1 true [])
     (by decide) (by decide) (by decide)⟩

/-- The branch scan takes the first branch whose predicate holds. -/
theorem alt_loop_first (pm : Match → State → Option State) :
    ∀ (pre : List Match) (p : Match) (post : List Match) (st : State),
      (∀ x ∈ pre, applies x st = false) → applies p st = true →
      alt_loop pm (pre ++ p :: post) st
        = (pm p st).map (fun s => { s with applied := true })
  | [], p, post, st, _, hp => by
      simp [alt_loop, hp]
  | x :: xs, p, post, st, hpre, hp => by
      have hx : applies x st = false := hpre x (List.mem_cons_self x xs)
      simp only [List.cons_append, alt_loop, hx, Bool.false_eq_true, if_false]
      exact alt_loop_first pm xs p post st
        (fun y hy => hpre y (List.mem_cons_of_mem x hy)) hp

/-- The branch scan falls through when no branch's predicate holds. -/
theorem alt_loop_none (pm : Match → State → Option State) :
    ∀ (ms : List Match) (st : State), (∀ x ∈ ms, applies x st = false) →
      alt_loop pm ms st = some st
  | [], _, _ => rfl
  | x :: xs, st, hall => by
      have hx : applies x st = false := hall x (List.mem_cons_self x xs)
      simp only [alt_loop, hx, Bool.false_eq_true, if_false]
      exact alt_loop_none pm xs st (fun y hy => hall y (List.mem_cons_of_mem x hy))

/-- Claim C2: a single repetition of an Alternative node (parser.c:129-139)
scans the branches in declaration order; at the first branch whose lookahead
predicate holds it dispatches into that branch and then sets applied
unconditionally, never reaching any later branch; if no branch's predicate
holds it clears applied and consumes nothing. -/
theorem alternative_first_branch (pm : Match → State → Option State) (q : Quant)
    (fs : List Literal) (ms pre post : List Match) (p : Match) (st : State) :
    (ms = pre ++ p :: post → (∀ x ∈ pre, applies x st = false) →
      applies p st = true →
      parse_alternative pm (Match.alternative q fs ms) st
        = (pm p { st with applied := false }).map (fun s => { s with applied := true }))
    ∧ ((∀ x ∈ ms, applies x st = false) →
      parse_alternative pm (Match.alternative q fs ms) st
        = some { st with applied := false }) := by
  constructor
  · intro hms hpre hp
    subst hms
    unfold parse_alternative
    have h1 : ∀ x ∈ pre, applies x { st with applied := false } = false := by
      intro x hx
      rw [applies_set_applied]
      exact hpre x hx
    have h2 : applies p { st with applied := false } = true := by
      rw [applies_set_applied]
      exact hp
    exact alt_loop_first pm pre p post { st with applied := false } h1 h2
  · intro hall
    unfold parse_alternative
    have h1 : ∀ x ∈ ms, applies x { st with applied := false } = false := by
      intro x hx
      rw [applies_set_applied]
      exact hall x hx
    exact alt_loop_none pm ms { st with applied := false } h1

/-- Claim C2 witness: with a single branch whose first-set literal "a" matches
the input "a", the alternative dispatches into that branch and overrides
applied to true. -/
theorem alternative_first_branch_witness :
    applies aFirstNode (parseInit ['a']) = true
    ∧ parse_alternative pmKeep
        (Match.alternative Quant.once [] ([] ++ aFirstNode :: [])) (parseInit ['a'])
      = (pmKeep aFirstNode { parseInit ['a'] with applied := false }).map
          (fun s => { s with applied := true }) :=
  ⟨by decide,
   (alternative_first_branch pmKeep Quant.once [] ([] ++ aFirstNode :: []) [] []
      aFirstNode (parseInit ['a'])).1 rfl (by simp) (by decide)⟩

/-- Claim C5 counterexample: the claim says applies returns true on the first
first-set literal that matches at the current position.  The zero-length
literal epsLit matches at offset 0 of the empty text (lex returns 0, a
successful match, the failure sentinel being -1), epsNode's first-set consists
of exactly that literal, yet applies returns false: the loop at parser.c:122
demands a strictly positive matched length. -/
theorem applies_zero_length_cex :
    lex epsLit (parseInit []) = 0
    ∧ epsNode.first = [epsLit]
    ∧ applies epsNode (parseInit []) = false :=
  ⟨rfl, rfl, rfl⟩

/-- The first-set scan succeeds at the first strictly-positive lex. -/
theorem appliesFirst_pos (st : State) :
    ∀ (pre : List Literal) (f : Literal) (post : List Literal),
      (∀ x ∈ pre, lex x st ≤ 0) → 0 < lex f st →
      appliesFirst (pre ++ f :: post) st = true
  | [], f, post, _, hf => by
      simp only [List.nil_append, appliesFirst]
      rw [if_pos hf]
  | x :: xs, f, post, hpre, hf => by
      have hx : lex x st ≤ 0 := hpre x (List.mem_cons_self x xs)
      have hnx : ¬ lex x st > 0 := by omega
      simp only [List.cons_append, appliesFirst]
      rw [if_neg hnx]
      exact appliesFirst_pos st xs f post
        (fun y hy => hpre y (List.mem_cons_of_mem x hy)) hf

/-- The first-set scan fails when no lex is strictly positive. -/
theorem appliesFirst_nonpos (st : State) :
    ∀ (fs : List Literal), (∀ x ∈ fs, lex x st ≤ 0) → appliesFirst fs st = false
  | [], _ => rfl
  | x :: xs, hall => by
      have hx : lex x st ≤ 0 := hall x (List.mem_cons_self x xs)
      have hnx : ¬ lex x st > 0 := by omega
      simp only [appliesFirst]
      rw [if_neg hnx]
      exact appliesFirst_nonpos st xs
        (fun y hy => hall y (List.mem_cons_of_mem x hy))

/-- Claim C5 as amended: applies (parser.c:120-127) returns true on the first
first-set literal whose lex result is strictly positive, and false when no
first-set literal's lex result is strictly positive; a zero-length match does
not count. -/
theorem applies_positive_first (m : Match) (st : State) :
    (∀ (pre post : List Literal) (f : Literal), m.first = pre ++ f :: post →
      (∀ x ∈ pre, lex x st ≤ 0) → 0 < lex f st → applies m st = true)
    ∧ ((∀ x ∈ m.first, lex x st ≤ 0) → applies m st = false) := by
  constructor
  · intro pre post f hfs hpre hf
    unfold applies
    rw [hfs]
    exact appliesFirst_pos st pre f post hpre hf
  · intro hall
    exact appliesFirst_nonpos st m.first hall

/-- Claim C5 amended witness: on the input "a", a node whose first-set is the
single literal "a" (lex result 1) passes the lookahead test. -/
theorem applies_positive_first_witness :
    aFirstNode.first = [] ++ strLit ['a'] :: []
    ∧ 0 < lex (strLit ['a']) (parseInit ['a'])
    ∧ applies aFirstNode (parseInit ['a']) = true :=
  ⟨rfl, by decide,
   (applies_positive_first aFirstNode (parseInit ['a'])).1 [] [] (strLit ['a'])
     rfl (by simp) (by decide)⟩

/-- The Plus driver on a first repetition that did not apply: the mismatch is
recorded through grammar_error, the loop does not run, and the applied flag is
forced to true (parser.c:178-187). -/
theorem plus_fail_eq (func : Match → State → Option State) (fuel : Nat)
    (m : Match) (st st1 : State) (hq : m.quant = Quant.plus)
    (hf : func m st = some st1) (hna : st1.applied = false) :
    parse_quant_match func fuel m st
      = some { st1 with errors := st1.errors ++ [errMismatch], applied := true } := by
  unfold parse_quant_match
  rw [hq]
  simp only [hf, Option.some_bind, hna, Bool.false_eq_true, if_false]
  have h2 : (grammar_error st1 errMismatch).applied = false := hna
  rw [while_applied_of_not (func m) fuel (grammar_error st1 errMismatch) h2]
  rfl

/-- Claim C3: for a node quantified with Plus, the driver (parser.c:178-187)
calls the repetition function once unconditionally; when that first call did
not apply, the grammar-input mismatch is reported through the non-fatal
error-reporting path; otherwise it keeps calling while each call applies,
stopping at the first call that does not apply; and it reports applied = true
overall. -/
theorem plus_reports_mismatch (func : Match → State → Option State) (fuel : Nat)
    (m : Match) (st st1 : State) (hq : m.quant = Quant.plus)
    (hf : func m st = some st1) :
    (st1.applied = false →
      parse_quant_match func fuel m st
        = some { st1 with errors := st1.errors ++ [errMismatch], applied := true })
    ∧ (st1.applied = true →
      parse_quant_match func fuel m st
        = (while_applied (func m) fuel st1).map (fun s => { s with applied := true }))
    ∧ (∀ (n : Nat) (s s2 : State), while_applied (func m) n s = some s2 →
        s2.applied = false)
    ∧ (∀ st2, parse_quant_match func fuel m st = some st2 → st2.applied = true) := by
  refine ⟨plus_fail_eq func fuel m st st1 hq hf, ?_, while_applied_stops (func m), ?_⟩
  · intro ha
    unfold parse_quant_match
    rw [hq]
    simp only [hf, Option.some_bind, ha, if_true]
  · intro st2 h
    unfold parse_quant_match at h
    rw [hq] at h
    simp only [hf, Option.some_bind, Option.map_eq_some'] at h
    obtain ⟨s, _, hs⟩ := h
    rw [← hs]

/-- Claim C3 witness: a Plus node whose repetition function never applies, on
a fresh empty-text cursor: the driver records exactly one mismatch report and
still returns with applied set. -/
theorem plus_reports_mismatch_witness :
    parse_quant_match funcFail 3 mPlus (parseInit [])
      = some (State.mk [] 0 1 true [errMismatch]) :=
  (plus_reports_mismatch funcFail 3 mPlus (parseInit []) (parseInit [])
    rfl rfl).1 rfl

/-- Claim C4: for a node quantified with Star, the driver (parser.c:188-193)
consults the lookahead predicate before each repetition, runs the repetition
function while the predicate holds, and reports applied = true
unconditionally; concretely, a Star over a literal matching "a" on input
"aaab" consumes exactly the three a characters and leaves the cursor at the
b (offset 3). -/
theorem star_quant_semantics (func : Match → State → Option State) (fuel : Nat)
    (m : Match) (st : State) (hq : m.quant = Quant.star) :
    (applies m st = false →
      parse_quant_match func fuel m st = some { st with applied := true })
    ∧ (applies m st = true →
      parse_quant_match func (fuel + 1) m st
        = (func m st).bind fun s =>
            (star_loop m (func m) fuel s).map (fun s2 => { s2 with applied := true }))
    ∧ (∀ st2, parse_quant_match func fuel m st = some st2 → st2.applied = true)
    ∧ (∀ (n : Nat) (s s2 : State), star_loop m (func m) n s = some s2 →
        applies m s2 = false)
    ∧ parse_match gA 10 starA (parseInit ['a', 'a', 'a', 'b'])
        = some (State.mk ['a', 'a', 'a', 'b'] 3 1 true []) := by
  refine ⟨?_, ?_, ?_, star_loop_stops m (func m), by decide⟩
  · intro ha
    unfold parse_quant_match
    rw [hq]
    simp only
    rw [star_loop_of_not m (func m) fuel st ha]
    rfl
  · intro ha
    unfold parse_quant_match
    rw [hq]
    simp only [star_loop, ha, if_true]
    cases hcf : func m st <;> simp [hcf]
  · intro st2 h
    unfold parse_quant_match at h
    rw [hq] at h
    simp only [Option.map_eq_some'] at h
    obtain ⟨s, _, hs⟩ := h
    rw [← hs]

/-- Claim C4 witness: a Star node with an empty first-set on a fresh cursor:
zero repetitions, applied reported true, cursor unchanged. -/
theorem star_quant_semantics_witness :
    applies mStarEmpty (parseInit []) = false
    ∧ parse_quant_match funcFail 3 mStarEmpty (parseInit [])
        = some { parseInit [] with applied := true } :=
  ⟨rfl, (star_quant_semantics funcFail 3 mStarEmpty (parseInit []) rfl).1 rfl⟩

/-- Claim C10: for a node quantified with Plus whose required first repetition
did not apply, the driver still ends with applied = true — the mismatch is
recorded but the failure is not propagated — so an enclosing Sequence's
element loop (parser.c:143-147) continues with the remaining elements exactly
as if the Plus had succeeded. -/
theorem plus_failure_not_propagated (func : Match → State → Option State)
    (fuel : Nat) (m : Match) (st st1 : State) (hq : m.quant = Quant.plus)
    (hf : func m st = some st1) (hna : st1.applied = false) :
    parse_quant_match func fuel m st
      = some { st1 with errors := st1.errors ++ [errMismatch], applied := true }
    ∧ (∀ (pm : Match → State → Option State) (rest : List Match) (s2 : State),
        pm m st = some s2 → s2.applied = true →
        seq_loop pm (m :: rest) st = seq_loop pm rest s2) := by
  refine ⟨plus_fail_eq func fuel m st st1 hq hf hna, ?_⟩
  intro pm rest s2 hpm hs2
  simp [seq_loop, hpm, hs2]

/-- Claim C10 witness: the Plus node's driver result on input "z" carries
applied = true plus the mismatch report, and a sequence whose head evaluates
to that state proceeds to its remaining elements. -/
theorem plus_failure_not_propagated_witness :
    parse_quant_match funcFail 4 mPlus (parseInit ['z'])
      = some (State.mk ['z'] 0 1 true [errMismatch])
    ∧ seq_loop pmP (mPlus :: []) (parseInit ['z'])
        = seq_loop pmP [] (State.mk ['z'] 0 1 true [errMismatch]) :=
  ⟨(plus_failure_not_propagated funcFail 4 mPlus (parseInit ['z'])
      (parseInit ['z']) rfl rfl rfl).1,
   (plus_failure_not_propagated funcFail 4 mPlus (parseInit ['z'])
      (parseInit ['z']) rfl rfl rfl).2 pmP []
      (State.mk ['z'] 0 1 true [errMismatch]) rfl rfl⟩

end AugeasParser
